import Mathlib

/-!
Verification of the counting engine (`CountingAI` in `Main.py`).

The engine text is modelled shallowly:
* Python `int` is `Int`; Python strings are `List Char` (with `String` kept
  for record labels and descriptions).
* `collections.Counter` is an insertion-ordered association list built by
  `counter`; Python `dict` lookup is `lookupCount`.
* `re.findall(r"\b\w+\b", text)` is `findWords`, splitting the text into
  maximal runs of alphanumeric/underscore characters.
* The mutable `CountingAI` object is `EngineState`, threaded explicitly;
  `raise ValueError` is the `Except.error` constructor, returned together
  with the (unchanged) state.
-/

/-- The tagged result value stored in the log, one case per counting mode. -/
inductive ResultVal where
  | intList : List Int → ResultVal
  | occurrences : List (Char × Nat) → List (List Char × Nat) → ResultVal
  | custom : List (List Char × Nat) → ResultVal
  deriving DecidableEq

/-- One entry of `self.history`: `(label, description, result)`. -/
structure OperationRecord where
  label : String
  description : String
  result : ResultVal
  deriving DecidableEq

/-- The mutable state of a `CountingAI` instance (`__init__`). -/
structure EngineState where
  history : List OperationRecord
  mode : String
  custom_items : List (List Char)
  last_result : Option ResultVal
  deriving DecidableEq

/-- The state built by `CountingAI.__init__`. -/
def init_state : EngineState :=
  { history := [], mode := "basic", custom_items := [], last_result := none }

/-- `list(range(a, b, s))` for Python integers, for nonzero step
(closed form: the `k`-th element is `a + s * k`). -/
def pyRange (a b s : Int) : List Int :=
  if 0 < s then
    if a < b then
      (List.range ((b - a - 1).toNat / s.toNat + 1)).map (fun k : Nat => a + s * (k : Int))
    else []
  else if s < 0 then
    if b < a then
      (List.range ((a - b - 1).toNat / (-s).toNat + 1)).map (fun k : Nat => a + s * (k : Int))
    else []
  else []

/-- `CountingAI.basic_count`.  Returns the Python return value (or the raised
`ValueError` message) together with the state of the object after the call. -/
def basic_count (start stop step : Int) (st : EngineState) :
    Except String (List Int) × EngineState :=
  if step = 0 then (.error "Step cannot be zero", st)
  else if start = stop then (.ok [start], st)
  else if (start < stop ∧ step < 0) ∨ (stop < start ∧ 0 < step) then (.ok [], st)
  else
    let result := pyRange start (stop + if 0 < step then 1 else -1) step
    (.ok result,
      { st with
        last_result := some (.intList result)
        history := st.history ++
          [⟨"Basic Count",
            "from " ++ toString start ++ " to " ++ toString stop ++ " by " ++ toString step,
            .intList result⟩] })

/-- A `\w` word character: alphanumeric or underscore (ASCII-style). -/
def isWordChar (c : Char) : Bool := c.isAlphanum || c = '_'

/-- `re.findall(r"\b\w+\b", text)`: the maximal runs of word characters,
in order.  The second argument accumulates the current run, reversed. -/
def findWords : List Char → List Char → List (List Char)
  | [], [] => []
  | [], acc => [acc.reverse]
  | c :: cs, acc =>
    if isWordChar c then findWords cs (c :: acc)
    else if acc.isEmpty then findWords cs []
    else acc.reverse :: findWords cs []

/-- `text.lower()` (ASCII case mapping, character by character). -/
def pyLower (t : List Char) : List Char := t.map Char.toLower

/-- `text.replace(' ', '')`. -/
def removeSpaces (t : List Char) : List Char := t.filter (fun c => c != ' ')

/-- One `Counter` increment: bump the key if present, else append it. -/
def bumpKey {α : Type} [DecidableEq α] (x : α) : List (α × Nat) → List (α × Nat)
  | [] => [(x, 1)]
  | (k, n) :: rest => if k = x then (k, n + 1) :: rest else (k, n) :: bumpKey x rest

/-- `collections.Counter(xs)` as an insertion-ordered association list. -/
def counter {α : Type} [DecidableEq α] (xs : List α) : List (α × Nat) :=
  xs.foldl (fun m x => bumpKey x m) []

/-- Python `dict` lookup `m[x]` on an association list, as an `Option`. -/
def lookupCount {α : Type} [DecidableEq α] (x : α) : List (α × Nat) → Option Nat
  | [] => none
  | (k, n) :: rest => if k = x then some n else lookupCount x rest

/-- The number of exact-match occurrences of `x` in the list `xs`. -/
def occCount {α : Type} [DecidableEq α] (x : α) (xs : List α) : Nat :=
  (xs.filter (fun y => decide (y = x))).length

/-- The single-quote character, used in the log description of
`count_occurrences`. -/
def squote : String := String.singleton (Char.ofNat 39)

/-- `CountingAI.count_occurrences`.  Returns the `{"characters": …,
"words": …}` dictionary (as a pair of association lists) and the state of
the object after the call. -/
def count_occurrences (text : List Char) (case_sensitive : Bool) (st : EngineState) :
    (List (Char × Nat) × List (List Char × Nat)) × EngineState :=
  let t := if case_sensitive then text else pyLower text
  let words := findWords t []
  let all_chars := removeSpaces t
  let char_count := counter all_chars
  let word_count := counter words
  ((char_count, word_count),
    { st with
      last_result := some (.occurrences char_count word_count)
      history := st.history ++
        [⟨"Count Occurrences",
          "Text: " ++ squote ++ String.mk (t.take 20) ++ "..." ++ squote,
          .occurrences char_count word_count⟩] })

/-- `CountingAI.custom_count`. -/
def custom_count (items : List (List Char)) (st : EngineState) :
    List (List Char × Nat) × EngineState :=
  let result := counter items
  (result,
    { st with
      last_result := some (.custom result)
      history := st.history ++
        [⟨"Custom Count", toString items.length ++ " items", .custom result⟩] })

/-- `CountingAI.get_history`. -/
def get_history (st : EngineState) : List OperationRecord := st.history

/-- `CountingAI.clear_history`. -/
def clear_history (st : EngineState) : EngineState :=
  { st with history := [], last_result := none }

/-- One engine call, used to quantify over arbitrary operation sequences. -/
inductive EngineOp where
  | basic : Int → Int → Int → EngineOp
  | occurrences : List Char → Bool → EngineOp
  | custom : List (List Char) → EngineOp

/-- The state after one engine call (the returned value is discarded). -/
def applyOp (st : EngineState) : EngineOp → EngineState
  | .basic a b s => (basic_count a b s st).2
  | .occurrences t cs => (count_occurrences t cs st).2
  | .custom items => (custom_count items st).2

/-- The state after a sequence of engine calls. -/
def runOps (ops : List EngineOp) (st : EngineState) : EngineState :=
  ops.foldl applyOp st

/-! ### Helper lemmas about `counter` and `lookupCount` -/

theorem occCount_nil {α : Type} [DecidableEq α] (x : α) : occCount x [] = 0 := rfl

theorem occCount_cons {α : Type} [DecidableEq α] (x y : α) (ys : List α) :
    occCount x (y :: ys) = occCount x ys + if y = x then 1 else 0 := by
  by_cases h : y = x <;> simp [occCount, List.filter_cons, h]

theorem lookupCount_bumpKey {α : Type} [DecidableEq α] (x y : α) (m : List (α × Nat)) :
    lookupCount x (bumpKey y m) =
      if x = y then some ((lookupCount x m).getD 0 + 1) else lookupCount x m := by
  induction m with
  | nil =>
    by_cases hxy : x = y <;> simp [bumpKey, lookupCount, hxy, eq_comm]
  | cons p rest ih =>
    obtain ⟨k, n⟩ := p
    simp only [bumpKey]
    by_cases hky : k = y
    · simp only [if_pos hky, lookupCount]
      by_cases hkx : k = x
      · have hxy : x = y := by rw [← hkx, hky]
        simp [hkx, hxy]
      · have hxy : ¬ x = y := fun h => hkx (by rw [hky, ← h])
        simp [hkx, hxy]
    · simp only [if_neg hky, lookupCount]
      by_cases hkx : k = x
      · have hxy : ¬ x = y := fun h => hky (by rw [hkx, h])
        simp [hkx, hxy]
      · simp [hkx, ih]

theorem lookupCount_counter_aux {α : Type} [DecidableEq α] (xs : List α)
    (m : List (α × Nat)) (x : α) :
    lookupCount x (xs.foldl (fun m y => bumpKey y m) m) =
      if occCount x xs = 0 then lookupCount x m
      else some ((lookupCount x m).getD 0 + occCount x xs) := by
  induction xs generalizing m with
  | nil => simp [occCount_nil]
  | cons y ys ih =>
    simp only [List.foldl_cons]
    rw [ih (bumpKey y m), lookupCount_bumpKey, occCount_cons]
    by_cases hxy : x = y
    · subst hxy
      simp only [eq_self_iff_true, if_true, Option.getD_some]
      by_cases h0 : occCount x ys = 0
      · simp [h0]
      · rw [if_neg h0, if_neg (by omega : ¬ (occCount x ys + 1 = 0))]
        congr 1
        omega
    · have hyx : ¬ (y = x) := fun h => hxy h.symm
      rw [if_neg hxy, if_neg hyx, Nat.add_zero]

theorem lookupCount_counter {α : Type} [DecidableEq α] (xs : List α) (x : α) :
    lookupCount x (counter xs) =
      if occCount x xs = 0 then none else some (occCount x xs) := by
  have h := lookupCount_counter_aux xs [] x
  simpa [counter, lookupCount] using h

/-! ### Helper lemmas about `pyRange` -/

theorem pyRange_index_pos (a b s : Int) (hs : 0 < s) (hab : a < b) (k : Nat) :
    k < (b - a - 1).toNat / s.toNat + 1 ↔ a + s * k < b := by
  have hsn : 0 < s.toNat := by omega
  have h1 : ((b - a - 1).toNat : Int) = b - a - 1 := Int.toNat_of_nonneg (by omega)
  have h2 : ((s.toNat : Nat) : Int) = s := Int.toNat_of_nonneg hs.le
  rw [Nat.lt_succ_iff, Nat.le_div_iff_mul_le hsn]
  constructor
  · intro h
    have h' : ((k * s.toNat : Nat) : Int) ≤ ((b - a - 1).toNat : Int) := Int.ofNat_le.mpr h
    rw [h1] at h'
    push_cast at h'
    rw [h2] at h'
    nlinarith
  · intro h
    have h' : ((k * s.toNat : Nat) : Int) ≤ b - a - 1 := by
      push_cast
      rw [h2]
      nlinarith
    rw [← h1] at h'
    exact_mod_cast h'

theorem pyRange_index_neg (a b s : Int) (hs : s < 0) (hab : b < a) (k : Nat) :
    k < (a - b - 1).toNat / (-s).toNat + 1 ↔ b < a + s * k := by
  have hsn : 0 < (-s).toNat := by omega
  have h1 : ((a - b - 1).toNat : Int) = a - b - 1 := Int.toNat_of_nonneg (by omega)
  have h2 : (((-s).toNat : Nat) : Int) = -s := Int.toNat_of_nonneg (by omega)
  rw [Nat.lt_succ_iff, Nat.le_div_iff_mul_le hsn]
  constructor
  · intro h
    have h' : ((k * (-s).toNat : Nat) : Int) ≤ ((a - b - 1).toNat : Int) := Int.ofNat_le.mpr h
    rw [h1] at h'
    push_cast at h'
    rw [h2] at h'
    nlinarith
  · intro h
    have h' : ((k * (-s).toNat : Nat) : Int) ≤ a - b - 1 := by
      push_cast
      rw [h2]
      nlinarith
    rw [← h1] at h'
    exact_mod_cast h'

theorem pyRange_mem_pos (a b s : Int) (hs : 0 < s) (hab : a < b) (x : Int) :
    x ∈ pyRange a b s ↔ ∃ k : Nat, x = a + s * k ∧ x < b := by
  unfold pyRange
  rw [if_pos hs, if_pos hab, List.mem_map]
  constructor
  · rintro ⟨k, hk, rfl⟩
    rw [List.mem_range] at hk
    exact ⟨k, rfl, (pyRange_index_pos a b s hs hab k).mp hk⟩
  · rintro ⟨k, rfl, hx⟩
    exact ⟨k, List.mem_range.mpr ((pyRange_index_pos a b s hs hab k).mpr hx), rfl⟩

theorem pyRange_mem_neg (a b s : Int) (hs : s < 0) (hab : b < a) (x : Int) :
    x ∈ pyRange a b s ↔ ∃ k : Nat, x = a + s * k ∧ b < x := by
  have hns : ¬ (0 < s) := by omega
  unfold pyRange
  rw [if_neg hns, if_pos hs, if_pos hab, List.mem_map]
  constructor
  · rintro ⟨k, hk, rfl⟩
    rw [List.mem_range] at hk
    exact ⟨k, rfl, (pyRange_index_neg a b s hs hab k).mp hk⟩
  · rintro ⟨k, rfl, hx⟩
    exact ⟨k, List.mem_range.mpr ((pyRange_index_neg a b s hs hab k).mpr hx), rfl⟩

/-! ### Claim theorems -/

/-- Claim C3: `generate_range(x, y, 0)` raises `ValueError` ("Step cannot be
zero") for all `x`, `y`, and the zero step is the only input the engine
raises on: every call with a nonzero step returns normally. -/
theorem basic_count_zero_step_raises (x y s : Int) (st : EngineState) :
    basic_count x y 0 st = (.error "Step cannot be zero", st) ∧
    (s ≠ 0 → ∃ r, (basic_count x y s st).1 = .ok r) := by
  refine ⟨by simp [basic_count], fun hs => ?_⟩
  unfold basic_count
  rw [if_neg hs]
  by_cases h1 : x = y
  · rw [if_pos h1]
    exact ⟨[x], rfl⟩
  · rw [if_neg h1]
    by_cases h2 : (x < y ∧ s < 0) ∨ (y < x ∧ 0 < s)
    · rw [if_pos h2]
      exact ⟨[], rfl⟩
    · rw [if_neg h2]
      exact ⟨_, rfl⟩

/-- Concrete instance of `basic_count_zero_step_raises`: step `3` from `2`
to `7` is nonzero and the call returns normally. -/
theorem basic_count_zero_step_raises_witness :
    basic_count 2 7 0 init_state = (.error "Step cannot be zero", init_state) ∧
    ((3 : Int) ≠ 0 → ∃ r, (basic_count 2 7 3 init_state).1 = .ok r) :=
  ⟨(basic_count_zero_step_raises 2 7 3 init_state).1,
   fun _ => (basic_count_zero_step_raises 2 7 3 init_state).2 (by decide)⟩

/-- Claim C4: a zero-step failure is atomic: the log and the
most-recent-result cache are exactly what they were before the call. -/
theorem basic_count_zero_step_atomic (x y : Int) (st : EngineState) :
    get_history (basic_count x y 0 st).2 = get_history st ∧
    ((basic_count x y 0 st).2).last_result = st.last_result := by
  simp [basic_count]

/-- Claim C5: for every `x` and nonzero `k` of either sign,
`generate_range(x, x, k)` returns the one-element sequence `[x]`
(and leaves the state untouched). -/
theorem basic_count_start_eq_stop (x k : Int) (st : EngineState) (hk : k ≠ 0) :
    basic_count x x k st = (.ok [x], st) := by
  simp [basic_count, hk]

/-- Concrete instance of `basic_count_start_eq_stop` at `x = 5`, `k = -2`. -/
theorem basic_count_start_eq_stop_witness :
    (-2 : Int) ≠ 0 ∧ basic_count 5 5 (-2) init_state = (.ok [5], init_state) :=
  ⟨by decide, basic_count_start_eq_stop 5 (-2) init_state (by decide)⟩

/-- Claim C6: on a direction mismatch (`start < end` with negative step, or
`start > end` with positive step) the engine returns the empty sequence and
does not raise. -/
theorem basic_count_direction_mismatch (a b s : Int) (st : EngineState)
    (h : (a < b ∧ s < 0) ∨ (b < a ∧ 0 < s)) :
    basic_count a b s st = (.ok [], st) := by
  have hs : s ≠ 0 := by rcases h with ⟨_, hs⟩ | ⟨_, hs⟩ <;> omega
  have hab : a ≠ b := by rcases h with ⟨hab, _⟩ | ⟨hab, _⟩ <;> omega
  simp [basic_count, hs, hab, h]

/-- Concrete instance of `basic_count_direction_mismatch`:
`generate_range(1, 10, -1)` returns `[]`. -/
theorem basic_count_direction_mismatch_witness :
    (((1 : Int) < 10 ∧ (-1 : Int) < 0) ∨ ((10 : Int) < 1 ∧ (0 : Int) < -1)) ∧
    basic_count 1 10 (-1) init_state = (.ok [], init_state) :=
  ⟨by decide, basic_count_direction_mismatch 1 10 (-1) init_state (by decide)⟩

/-- Claim C10: after any sequence of engine operations, `clear_history`
empties the log and resets the last-result cache to its initial value. -/
theorem clear_history_resets (ops : List EngineOp) :
    get_history (clear_history (runOps ops init_state)) = [] ∧
    (clear_history (runOps ops init_state)).last_result = init_state.last_result :=
  ⟨rfl, rfl⟩

/-- Counterexample to claim C2: the call `generate_range(5, 5, 1)` returns
the sequence `[5]` but appends nothing to the log — the state after the
call is the initial state, whose log is empty, not of length 1. -/
theorem basic_count_logging_counterexample :
    basic_count 5 5 1 init_state = (.ok [5], init_state) ∧
    (get_history (basic_count 5 5 1 init_state).2).length = 0 := by
  constructor <;> rfl

/-- Claim C2 as amended: a `generate_range` call with nonzero step appends
exactly one record `("Basic Count", "from {start} to {end} by {step}",
result)` to the log when it takes the general path; the early returns for
`start = end` and for a direction mismatch append nothing and leave the
state unchanged. -/
theorem basic_count_logging (a b s : Int) (st : EngineState) (hs : s ≠ 0) :
    (a = b → basic_count a b s st = (.ok [a], st)) ∧
    ((a < b ∧ s < 0) ∨ (b < a ∧ 0 < s) → basic_count a b s st = (.ok [], st)) ∧
    (a ≠ b → ¬ ((a < b ∧ s < 0) ∨ (b < a ∧ 0 < s)) →
      ∃ r, basic_count a b s st =
        (.ok r,
          { st with
            last_result := some (.intList r)
            history := st.history ++
              [⟨"Basic Count",
                "from " ++ toString a ++ " to " ++ toString b ++ " by " ++ toString s,
                .intList r⟩] })) := by
  refine ⟨fun hab => ?_, fun hmm => ?_, fun hab hmm => ?_⟩
  · subst hab
    simp [basic_count, hs]
  · have hab : a ≠ b := by rcases hmm with ⟨h1, _⟩ | ⟨h1, _⟩ <;> omega
    simp [basic_count, hs, hab, hmm]
  · refine ⟨pyRange a (b + if 0 < s then 1 else -1) s, ?_⟩
    unfold basic_count
    rw [if_neg hs, if_neg hab, if_neg hmm]

/-- Concrete instance of `basic_count_logging` at `(1, 3, 1)`: the general
path appends one "Basic Count" record. -/
theorem basic_count_logging_witness :
    (1 : Int) ≠ 0 ∧
    ((1 : Int) ≠ 3 → ¬ (((1 : Int) < 3 ∧ (1 : Int) < 0) ∨ ((3 : Int) < 1 ∧ (0 : Int) < 1)) →
      ∃ r, basic_count 1 3 1 init_state =
        (.ok r,
          { init_state with
            last_result := some (.intList r)
            history := init_state.history ++
              [⟨"Basic Count",
                "from " ++ toString (1 : Int) ++ " to " ++ toString (3 : Int) ++ " by " ++
                  toString (1 : Int),
                .intList r⟩] })) :=
  ⟨by decide, (basic_count_logging 1 3 1 init_state (by decide)).2.2⟩

/-- Claim C7: with `case_sensitive = False` the text is lowercased before
any analysis, so the result cannot distinguish texts that differ only in
letter case — counts of case-variant words are merged; in particular
`count_text_frequencies("Hi hi", False)["words"] = {"hi": 2}`. -/
theorem count_occurrences_case_insensitive (t₁ t₂ : List Char) (st₁ st₂ : EngineState)
    (h : pyLower t₁ = pyLower t₂) :
    (count_occurrences t₁ false st₁).1 = (count_occurrences t₂ false st₂).1 ∧
    (count_occurrences (String.toList "Hi hi") false st₁).1.2 =
      [(String.toList "hi", 2)] := by
  constructor
  · show (counter (removeSpaces (pyLower t₁)), counter (findWords (pyLower t₁) [])) =
      (counter (removeSpaces (pyLower t₂)), counter (findWords (pyLower t₂) []))
    rw [h]
  · rfl

/-- Concrete instance of `count_occurrences_case_insensitive`: "Hi" and "hI"
lowercase to the same text, so their analyses agree. -/
theorem count_occurrences_case_insensitive_witness :
    pyLower (String.toList "Hi") = pyLower (String.toList "hI") ∧
    (count_occurrences (String.toList "Hi") false init_state).1 =
      (count_occurrences (String.toList "hI") false init_state).1 :=
  ⟨by decide,
   (count_occurrences_case_insensitive (String.toList "Hi") (String.toList "hI")
      init_state init_state (by decide)).1⟩

/-- Claim C8: the `"characters"` mapping is the frequency count of the
(possibly lowercased) text with all spaces removed — looking up any
character, punctuation included, yields its number of occurrences in that
stripped text; in particular
`count_text_frequencies("aa bb", True)["characters"] = {'a': 2, 'b': 2}`. -/
theorem count_occurrences_characters (t : List Char) (cs : Bool) (st : EngineState)
    (c : Char) :
    (lookupCount c (count_occurrences t cs st).1.1 =
      if occCount c (removeSpaces (if cs then t else pyLower t)) = 0 then none
      else some (occCount c (removeSpaces (if cs then t else pyLower t)))) ∧
    (count_occurrences (String.toList "aa bb") true st).1.1 = [('a', 2), ('b', 2)] := by
  constructor
  · show lookupCount c (counter (removeSpaces (if cs then t else pyLower t))) = _
    exact lookupCount_counter _ c
  · rfl

/-- Claim C9: `count_custom_items` maps every distinct string of the input
list to its number of exact-match occurrences (and strings not in the list
to nothing); in particular
`count_custom_items(["a","b","a"]) = {"a": 2, "b": 1}`. -/
theorem custom_count_exact_counts (items : List (List Char)) (s : List Char)
    (st : EngineState) :
    (lookupCount s (custom_count items st).1 =
      if occCount s items = 0 then none else some (occCount s items)) ∧
    (custom_count [String.toList "a", String.toList "b", String.toList "a"] st).1 =
      [(String.toList "a", 2), (String.toList "b", 1)] := by
  constructor
  · show lookupCount s (counter items) = _
    exact lookupCount_counter items s
  · rfl

/-- Counterexample to claim C1: at `start = 1`, `end = 9`, `step = 3` (a
valid forward call: `1 < 9`, `3 > 0`, `1 ≠ 9`) the engine returns
`[1, 4, 7]`, which does not contain the terminal bound `9` — so `end` is
not included when `end - start` is not an exact multiple of `step`. -/
theorem basic_count_inclusive_end_counterexample :
    (0 : Int) < 3 ∧ (1 : Int) < 9 ∧
    (basic_count 1 9 3 init_state).1 = .ok [1, 4, 7] ∧
    ¬ ((9 : Int) ∈ [(1 : Int), 4, 7]) := by
  refine ⟨by decide, by decide, rfl, by decide⟩

/-- Claim C1 as amended: for `start ≠ end` with the step pointing from
`start` toward `end`, the engine returns the arithmetic sequence that
begins at `start`, advances by `step`, and contains exactly the terms lying
between `start` and `end` inclusive; the terminal bound `end` itself
appears exactly when `end - start` is a multiple of `step`. -/
theorem basic_count_progression (a b s : Int) (st : EngineState)
    (hdir : (0 < s ∧ a < b) ∨ (s < 0 ∧ b < a)) :
    ∃ r st', basic_count a b s st = (.ok r, st') ∧
      a ∈ r ∧
      (∀ x : Int, x ∈ r ↔ ∃ k : Nat, x = a + s * k ∧ min a b ≤ x ∧ x ≤ max a b) ∧
      (b ∈ r ↔ s ∣ b - a) := by
  have hs : s ≠ 0 := by rcases hdir with ⟨h1, _⟩ | ⟨h1, _⟩ <;> omega
  have hab : a ≠ b := by rcases hdir with ⟨_, h1⟩ | ⟨_, h1⟩ <;> omega
  have hmm : ¬ ((a < b ∧ s < 0) ∨ (b < a ∧ 0 < s)) := by
    rcases hdir with ⟨h1, h2⟩ | ⟨h1, h2⟩ <;> omega
  rcases hdir with ⟨hs0, hab0⟩ | ⟨hs0, hab0⟩
  · -- forward: 0 < s, a < b
    have hmin : min a b = a := min_eq_left hab0.le
    have hmax : max a b = b := max_eq_right hab0.le
    have hmem := pyRange_mem_pos a (b + 1) s hs0 (by omega)
    refine ⟨pyRange a (b + 1) s,
      { st with
        last_result := some (.intList (pyRange a (b + 1) s))
        history := st.history ++
          [⟨"Basic Count",
            "from " ++ toString a ++ " to " ++ toString b ++ " by " ++ toString s,
            .intList (pyRange a (b + 1) s)⟩] }, ?_, ?_, ?_, ?_⟩
    · unfold basic_count
      rw [if_neg hs, if_neg hab, if_neg hmm, if_pos hs0]
    · exact (hmem a).mpr ⟨0, by simp, by omega⟩
    · intro x
      rw [hmem x, hmin, hmax]
      constructor
      · rintro ⟨k, rfl, hx⟩
        have hk0 : (0 : Int) ≤ s * k := by positivity
        exact ⟨k, rfl, by omega, by omega⟩
      · rintro ⟨k, rfl, h1, h2⟩
        exact ⟨k, rfl, by omega⟩
    · rw [hmem b]
      constructor
      · rintro ⟨k, hk, _⟩
        exact ⟨(k : Int), by linarith⟩
      · rintro ⟨c, hc⟩
        have hc0 : 0 < c := by nlinarith
        refine ⟨c.toNat, ?_, by omega⟩
        rw [Int.toNat_of_nonneg hc0.le]
        omega
  · -- backward: s < 0, b < a
    have hmin : min a b = b := min_eq_right hab0.le
    have hmax : max a b = a := max_eq_left hab0.le
    have hns : ¬ (0 < s) := by omega
    have hmem := pyRange_mem_neg a (b - 1) s hs0 (by omega)
    refine ⟨pyRange a (b - 1) s,
      { st with
        last_result := some (.intList (pyRange a (b - 1) s))
        history := st.history ++
          [⟨"Basic Count",
            "from " ++ toString a ++ " to " ++ toString b ++ " by " ++ toString s,
            .intList (pyRange a (b - 1) s)⟩] }, ?_, ?_, ?_, ?_⟩
    · unfold basic_count
      rw [if_neg hs, if_neg hab, if_neg hmm, if_neg hns,
        show b + (-1 : Int) = b - 1 from by ring]
    · exact (hmem a).mpr ⟨0, by simp, by omega⟩
    · intro x
      rw [hmem x, hmin, hmax]
      constructor
      · rintro ⟨k, rfl, hx⟩
        have hk0 : s * k ≤ 0 := mul_nonpos_of_nonpos_of_nonneg hs0.le (by positivity)
        exact ⟨k, rfl, by omega, by omega⟩
      · rintro ⟨k, rfl, h1, h2⟩
        exact ⟨k, rfl, by omega⟩
    · rw [hmem b]
      constructor
      · rintro ⟨k, hk, _⟩
        exact ⟨(k : Int), by linarith⟩
      · rintro ⟨c, hc⟩
        have hc0 : 0 < c := by nlinarith
        refine ⟨c.toNat, ?_, by omega⟩
        rw [Int.toNat_of_nonneg hc0.le]
        omega

/-- Concrete instance of `basic_count_progression`: `generate_range(1, 10, 1)`
returns the full progression `1, 2, …, 10` with the bound included. -/
theorem basic_count_progression_witness :
    (((0 : Int) < 1 ∧ (1 : Int) < 10) ∨ ((1 : Int) < 0 ∧ (10 : Int) < 1)) ∧
    (∃ r st', basic_count 1 10 1 init_state = (.ok r, st') ∧
      (1 : Int) ∈ r ∧
      (∀ x : Int, x ∈ r ↔ ∃ k : Nat, x = 1 + 1 * k ∧ min 1 10 ≤ x ∧ x ≤ max 1 10) ∧
      ((10 : Int) ∈ r ↔ (1 : Int) ∣ 10 - 1)) :=
  ⟨by decide, basic_count_progression 1 10 1 init_state (by decide)⟩
